import Mathlib

/-!
Verification development for the pyvsgen suite builder (`pyvsgen/suite.py`).

The configuration-resolution engine (`PyvsgenSuite.__init__`, `_getsolution`,
`_getproject`, `_getinterpreter`, `_getvirtualenvironment`) and the phase
collections constructed by `PyvsgenSuite.write` are embedded as pure Lean
functions.  Fallible Python code (raised `ValueError`s) is embedded with
`Except String`.  The entity classes (`PyvsgenSolution`, `PyvsgenProject`,
`PyvsgenInterpreter`), the typed config accessors (`PyvsgenConfigParser`)
and the command classes are not part of the sources; those parts are
modelled from the specification and are marked as such in doc comments.
Path manipulation (`os.path.dirname` / `join` / `normpath`) is embedded
with POSIX semantics.
-/

/-- Characters treated as whitespace by Python's `str.strip`. -/
def isSpaceB (c : Char) : Bool :=
  c = ' ' || c = '\t' || c = '\n' || c = '\r' || c = '\x0b' || c = '\x0c'

/-- Strip leading and trailing whitespace from a character list. -/
def trimChars (cs : List Char) : List Char :=
  ((cs.dropWhile isSpaceB).reverse.dropWhile isSpaceB).reverse

/-- Split a character list on a delimiter character, auxiliary accumulator form. -/
def splitCharsAux (d : Char) : List Char → List Char → List (List Char)
  | [], acc => [acc.reverse]
  | c :: cs, acc => if c = d then acc.reverse :: splitCharsAux d cs [] else splitCharsAux d cs (c :: acc)

/-- Split a character list on a delimiter character (Python `str.split(d)`). -/
def splitCharsOn (d : Char) (cs : List Char) : List (List Char) :=
  splitCharsAux d cs []

/-- Decide whether the first character list is an initial segment of the second. -/
def strStarts : List Char → List Char → Bool
  | [], _ => true
  | _ :: _, [] => false
  | p :: ps, c :: cs => p = c && strStarts ps cs

/-- Decide whether `pat` occurs as a contiguous substring of `s` (Python `pat in s`). -/
def strHasChars (pat : List Char) : List Char → Bool
  | [] => pat.isEmpty
  | c :: cs => strStarts pat (c :: cs) || strHasChars pat cs

/-- Decide whether the string `pat` occurs as a substring of `s` (Python `pat in s`). -/
def strHas (s pat : String) : Bool :=
  strHasChars pat.data s.data

/-- Lexicographic comparison of character lists by code point, Python string `<=`. -/
def charsLe : List Char → List Char → Bool
  | [], _ => true
  | _ :: _, [] => false
  | a :: as, b :: bs =>
    if a.toNat < b.toNat then true
    else if b.toNat < a.toNat then false
    else charsLe as bs

/-- Python string comparison `a <= b` used by `sorted(..., key=...)`. -/
def strLeB (a b : String) : Bool :=
  charsLe a.data b.data

/-- Concatenate character lists with a separator in between (Python `sep.join`). -/
def intercalChars (sep : Char) : List (List Char) → List Char
  | [] => []
  | [c] => c
  | c :: cs => c ++ sep :: intercalChars sep cs

/-- Concatenate a list of lists (a Python generator `[x for l in ls for x in l]`). -/
def concatAll : List (List α) → List α
  | [] => []
  | l :: ls => l ++ concatAll ls

/-- Embedding of `posixpath.join(a, b)` for two arguments. -/
def joinPathS (a b : String) : String :=
  if strStarts ['/'] b.data then b
  else if a.data = [] then b
  else if a.data.getLast? = some '/' then a ++ b
  else a ++ "/" ++ b

/-- Embedding of `posixpath.dirname(p)`: everything up to the final slash, with
trailing slashes stripped unless the result is all slashes. -/
def dirnameS (p : String) : String :=
  let head := ((p.data.reverse.dropWhile (fun c => ¬ (c = '/'))).reverse)
  if head = [] then ""
  else if head.all (fun c => c = '/') then String.mk head
  else String.mk ((head.reverse.dropWhile (fun c => c = '/')).reverse)

/-- Number of significant leading slashes for `posixpath.normpath` (two exactly
are preserved as `//`; one and three-or-more collapse to `/`). -/
def leadSlashes (cs : List Char) : Nat :=
  if strStarts ['/', '/'] cs && ¬ strStarts ['/', '/', '/'] cs then 2
  else if strStarts ['/'] cs then 1
  else 0

/-- Component processing loop of `posixpath.normpath`; the accumulator holds the
retained components in reverse order. -/
def normCompsAux (initial : Bool) : List (List Char) → List (List Char) → List (List Char)
  | acc, [] => acc.reverse
  | acc, comp :: rest =>
    if comp = [] || comp = ['.'] then normCompsAux initial acc rest
    else if ¬ (comp = ['.', '.']) then normCompsAux initial (comp :: acc) rest
    else
      match acc with
      | [] => if initial then normCompsAux initial [] rest
              else normCompsAux initial [comp] rest
      | top :: below =>
        if top = ['.', '.'] then normCompsAux initial (comp :: top :: below) rest
        else normCompsAux initial below rest

/-- Embedding of `posixpath.normpath(path)`. -/
def normpathS (p : String) : String :=
  if p.data = [] then "."
  else
    let slashes := leadSlashes p.data
    let comps := normCompsAux (slashes ≠ 0) [] (splitCharsOn '/' p.data)
    let body := intercalChars '/' comps
    let full := List.replicate slashes '/' ++ body
    if full = [] then "." else String.mk full

/-- Parse a decimal digit run to a natural number; `none` when empty or non-digit.
Modelled from the spec: the typed accessor layer converts raw strings to floats
(`getFloat`, spec section 4.1); the embedding covers plain decimal literals,
which is the shape the configuration format uses for `visual_studio_version`. -/
def parseDigits : List Char → Option Nat
  | [] => none
  | cs =>
    cs.foldl (fun acc c => match acc with
      | none => none
      | some n => if c.isDigit then some (n * 10 + (c.toNat - 48)) else none) (some 0)

/-- Parse an optionally signed decimal literal (`14`, `14.0`, `-2.5`, `.5`) to a
rational, as Python's `float` does on such inputs. -/
def parseDec (s : String) : Option Rat :=
  let cs := trimChars s.data
  let core : List Char → Option (Nat × Nat) := fun body =>
    match splitCharsOn '.' body with
    | [intPart] => (parseDigits intPart).map (fun n => (n, 1))
    | [intPart, fracPart] =>
      if intPart = [] ∧ fracPart = [] then none
      else
        let i : Option Nat := if intPart = [] then some 0 else parseDigits intPart
        let f : Option Nat := if fracPart = [] then some 0 else parseDigits fracPart
        match i, f with
        | some iv, some fv => some (iv * 10 ^ fracPart.length + fv, 10 ^ fracPart.length)
        | _, _ => none
    | _ => none
  match cs with
  | '-' :: rest => (core rest).map (fun p => mkRat (-(p.1 : Int)) p.2)
  | '+' :: rest => (core rest).map (fun p => mkRat p.1 p.2)
  | rest => (core rest).map (fun p => mkRat p.1 p.2)

/-- Parse a configparser boolean raw value.  Modelled from the spec: `getBool`
performs direct type coercion and fails when the raw value cannot convert. -/
def parseBool (s : String) : Option Bool :=
  let low := String.mk (s.data.map Char.toLower)
  if low = "1" ∨ low = "yes" ∨ low = "true" ∨ low = "on" then some true
  else if low = "0" ∨ low = "no" ∨ low = "false" ∨ low = "off" then some false
  else none

/-- A parsed configuration file: sections in file order, each with its key/value
pairs in file order. -/
structure Config where
  sections : List (String × List (String × String))
deriving DecidableEq, Repr

/-- Look up a key in a section's key/value list (first match). -/
def lookupKey : List (String × String) → String → Option String
  | [], _ => none
  | (k', v') :: rest, k => if k' = k then some v' else lookupKey rest k

/-- Find the (first) section with the given name. -/
def findSection : List (String × List (String × String)) → String → Option (List (String × String))
  | [], _ => none
  | (n, kvs) :: rest, sec => if n = sec then some kvs else findSection rest sec

/-- Raw option lookup: `none` when the section or the key is absent.  Modelled
from the spec: `PyvsgenConfigParser` (not under `src/`) is a configparser whose
accessors return the caller-supplied fallback when the key is absent. -/
def rawGet (cfg : Config) (sec key : String) : Option String :=
  (findSection cfg.sections sec).bind (fun kvs => lookupKey kvs key)

/-- Section names in file order (`config.sections()`). -/
def sectionList (cfg : Config) : List String :=
  cfg.sections.map Prod.fst

/-- Embedding of `section in config`. -/
def hasSection (cfg : Config) (sec : String) : Bool :=
  (findSection cfg.sections sec).isSome

/-- Replace the value of a key in a key/value list, appending when absent. -/
def setKey : List (String × String) → String → String → List (String × String)
  | [], k, v => [(k, v)]
  | (k', v') :: rest, k, v => if k' = k then (k, v) :: rest else (k', v') :: setKey rest k v

/-- Embedding of `config.set(sec, key, v)`. -/
def setOpt (cfg : Config) (sec key v : String) : Config :=
  ⟨cfg.sections.map (fun s => if s.1 = sec then (s.1, setKey s.2 key v) else s)⟩

/-- Embedding of `config.get(sec, key, fallback=fb)`. -/
def getStrF (cfg : Config) (sec key : String) (fb : String) : String :=
  (rawGet cfg sec key).getD fb

/-- Split a raw delimited value into an ordered sequence of trimmed, non-empty
strings; the empty raw string yields the empty sequence.  Modelled from the
spec: `getList` of the typed accessor layer (spec section 4.1), with comma as
the delimiter. -/
def splitListCfg (s : String) : List String :=
  ((splitCharsOn ',' s.data).map (fun cs => String.mk (trimChars cs))).filter (fun x => ¬ (x = ""))

/-- Embedding of `config.getlist(sec, key, fallback=fb)`. -/
def getlistF (cfg : Config) (sec key : String) (fb : List String) : List String :=
  match rawGet cfg sec key with
  | none => fb
  | some s => splitListCfg s

/-- Message of the error raised when an option is required but absent.  Modelled
from the spec: an accessor called without a fallback fails when the key is
absent (configparser `NoOptionError`). -/
def noOptionMsg (sec key : String) : String :=
  "No option '" ++ key ++ "' in section: '" ++ sec ++ "'"

/-- Embedding of `config.getlist(sec, key)` with no fallback: absence of the key
is an error. -/
def getlistReq (cfg : Config) (sec key : String) : Except String (List String) :=
  match rawGet cfg sec key with
  | none => Except.error (noOptionMsg sec key)
  | some s => Except.ok (splitListCfg s)

/-- The configured root used by the path-normalizing accessors.  Modelled from
the spec: `getDir`/`getDirs`/`getFile` resolve values into absolute paths
relative to the configured root (spec section 4.1). -/
def rootOf (cfg : Config) : String :=
  (rawGet cfg "pyvsgen" "root").getD ""

/-- Resolve one raw path value against the configured root. -/
def resolveAgainstRoot (cfg : Config) (v : String) : String :=
  normpathS (joinPathS (rootOf cfg) v)

/-- Embedding of `config.getfile(sec, key, fallback=fb)` / `getdir`: the
fallback is returned unchanged when the key is absent. -/
def getFileF (cfg : Config) (sec key : String) (fb : String) : String :=
  match rawGet cfg sec key with
  | none => fb
  | some v => resolveAgainstRoot cfg v

/-- Embedding of `config.getdirs(sec, key, fallback=fb)`. -/
def getDirsF (cfg : Config) (sec key : String) (fb : List String) : List String :=
  match rawGet cfg sec key with
  | none => fb
  | some s => (splitListCfg s).map (resolveAgainstRoot cfg)

/-- Embedding of `config.getfloat(sec, key, fallback=fb)`: fallback when the key
is absent, a conversion error when present but unparsable. -/
def getFloatE (cfg : Config) (sec key : String) (fb : Option Rat) : Except String (Option Rat) :=
  match rawGet cfg sec key with
  | none => Except.ok fb
  | some s =>
    match parseDec s with
    | some q => Except.ok (some q)
    | none => Except.error ("could not convert string to float: " ++ s)

/-- Embedding of `config.getboolean(sec, key, fallback=fb)`. -/
def getBoolE (cfg : Config) (sec key : String) (fb : Bool) : Except String Bool :=
  match rawGet cfg sec key with
  | none => Except.ok fb
  | some s =>
    match parseBool s with
    | some b => Except.ok b
    | none => Except.error ("Not a boolean: " ++ s)

/-- An interpreter entity.  Modelled from the spec: `PyvsgenInterpreter` (module
`pyvsgen.interpreter`, not under `src/`) identifies a language runtime or
virtual environment by its installation/environment path, carries a Version and
Description and the VSVersion context it was resolved under, and exposes a Name
used when phases order entities; identity for deduplication is the normalized
path (spec section 3). -/
structure Interpreter where
  Path : String := ""
  Name : String := ""
  Version : String := ""
  Description : String := ""
  VSVersion : Option Rat := none
deriving DecidableEq, Repr

/-- Modelled from the spec: `PyvsgenInterpreter.from_python_installation(p)`
discovers the interpreter rooted at installation path `p`; the filesystem
inspection it performs is external, so the embedding records the path (which is
the entity's identity) and the cascading VSVersion context. -/
def fromPythonInstallation (p : String) (vs : Option Rat) : Interpreter :=
  { Path := p, Name := p, VSVersion := vs }

/-- Modelled from the spec: `PyvsgenInterpreter.from_virtual_environment(p)`,
analogous to `from_python_installation` but rooted at an environment path. -/
def fromVirtualEnvironment (p : String) (vs : Option Rat) : Interpreter :=
  { Path := p, Name := p, VSVersion := vs }

/-- A project entity.  Modelled from the spec: `PyvsgenProject` (module
`pyvsgen.project`, not under `src/`), with the fields populated by
`PyvsgenSuite._getproject`; identity for deduplication is the normalized
FileName (spec section 3). -/
structure Project where
  Name : String := ""
  FileName : String := ""
  SearchPath : List String := []
  OutputPath : String := ""
  WorkingDirectory : String := ""
  RootNamespace : String := ""
  ProjectHome : String := ""
  StartupFile : String := ""
  CompileFiles : List String := []
  ContentFiles : List String := []
  CompileInFilter : List String := []
  CompileExFilter : List String := []
  ContentInFilter : List String := []
  ContentExFilter : List String := []
  DirectoryInFilter : List String := []
  DirectoryExFilter : List String := []
  IsWindowsApplication : Bool := false
  PythonInterpreterArgs : List String := []
  PythonInterpreters : List Interpreter := []
  PythonInterpreter : Option Interpreter := none
  VirtualEnvironments : List Interpreter := []
  VSVersion : Option Rat := none
deriving DecidableEq, Repr

/-- A solution entity.  Modelled from the spec: `PyvsgenSolution` (module
`pyvsgen.solution`, not under `src/`): Name, FileName, required VSVersion and
the ordered Projects list; identity for deduplication is the normalized
FileName (spec section 3). -/
structure Solution where
  Name : String := ""
  FileName : String := ""
  VSVersion : Option Rat := none
  Projects : List Project := []
deriving DecidableEq, Repr

/-- The suite produced by `PyvsgenSuite.__init__`. -/
structure Suite where
  solutions : List Solution
deriving DecidableEq, Repr

/-- Message of the `ValueError` raised when a referenced section is absent
(`'Section [{}] not found in [{}]'.format(section, ', '.join(config.sections()))`). -/
def sectionNotFound (sec : String) (sections : List String) : String :=
  "Section [" ++ sec ++ "] not found in [" ++ String.intercalate ", " sections ++ "]"

/-- Message of the `ValueError` raised when a solution section has no usable
`visual_studio_version`. -/
def vsMsg (sec : String) : String :=
  "Solution section [" ++ sec ++ "] requires a value for Visual Studio Version (visual_studio_version)"

/-- Message of the `ValueError` raised when `[pyvsgen]` has no usable `root`. -/
def rootMsg : String :=
  "Expected option \x22root\x22 in section [pyvsgen]."

/-- The value computed by `PyvsgenSuite._getinterpreter` once the section check
has passed: one interpreter per entry of `interpreter_paths`, each with its
Description overridden by the section's `description` when present. -/
def totalInterp (cfg : Config) (sec : String) (vs : Option Rat) : List Interpreter :=
  let paths := getDirsF cfg sec "interpreter_paths" []
  (paths.map (fun p => fromPythonInstallation p vs)).map
    (fun i => { i with Description := getStrF cfg sec "description" i.Description })

/-- Embedding of `PyvsgenSuite._getinterpreter(config, section, VSVersion=vs)`. -/
def getinterpreter (cfg : Config) (sec : String) (vs : Option Rat) : Except String (List Interpreter) :=
  if hasSection cfg sec then Except.ok (totalInterp cfg sec vs)
  else Except.error (sectionNotFound sec (sectionList cfg))

/-- The value computed by `PyvsgenSuite._getvirtualenvironment` once the section
check has passed. -/
def totalVenv (cfg : Config) (sec : String) (vs : Option Rat) : List Interpreter :=
  let paths := getDirsF cfg sec "environment_paths" []
  (paths.map (fun p => fromVirtualEnvironment p vs)).map
    (fun i => { i with Description := getStrF cfg sec "description" i.Description })

/-- Embedding of `PyvsgenSuite._getvirtualenvironment(config, section, VSVersion=vs)`. -/
def getvirtualenvironment (cfg : Config) (sec : String) (vs : Option Rat) : Except String (List Interpreter) :=
  if hasSection cfg sec then Except.ok (totalVenv cfg sec vs)
  else Except.error (sectionNotFound sec (sectionList cfg))

/-- Left-to-right effectful map over a list, propagating the first error, as a
Python list comprehension over a fallible body does. -/
def mapME (f : α → Except String β) : List α → Except String (List β)
  | [] => Except.ok []
  | x :: xs =>
    match f x with
    | Except.error e => Except.error e
    | Except.ok y =>
      match mapME f xs with
      | Except.error e => Except.error e
      | Except.ok ys => Except.ok (y :: ys)

/-- Python `dict` assignment `d[k] = v`: overwrite in place when the key exists
(keeping its original position), append otherwise. -/
def dictInsert : List (String × β) → String → β → List (String × β)
  | [], k, v => [(k, v)]
  | (k', v') :: rest, k, v =>
    if k' = k then (k, v) :: rest else (k', v') :: dictInsert rest k v

/-- Embedding of the dict comprehension
`{n: [i for i in self._getinterpreter(config, n, ...)] for n in names}`:
the body is evaluated once per occurrence of a name (errors propagate), while
duplicate keys collapse into the entry at the first occurrence's position. -/
def dictCompAux (f : String → Except String β) (acc : List (String × β)) :
    List String → Except String (List (String × β))
  | [] => Except.ok acc
  | n :: ns =>
    match f n with
    | Except.error e => Except.error e
    | Except.ok v => dictCompAux f (dictInsert acc n v) ns

/-- First-match association lookup, Python `d.get(k, default)` without the
default. -/
def assocLookup : List (String × β) → String → Option β
  | [], _ => none
  | (k', v') :: rest, k => if k' = k then some v' else assocLookup rest k

/-- Modelled from the spec: `PyvsgenProject.insert_files(root_path)` scans the
directory tree under `root_path` and appends discovered files to CompileFiles
and ContentFiles.  The scan reads an external filesystem, which the embedding
has no access to, so it is modelled as leaving the file lists unchanged; no
claim depends on the discovered files. -/
def insertFiles (_rootPath : String) (p : Project) : Project :=
  p

/-- The project record assembled by `PyvsgenSuite._getproject` from the resolved
pieces (source lines 81-111). -/
def mkProject (cfg : Config) (sec : String) (vs : Option Rat) (isWin : Bool)
    (assoc : List (String × List Interpreter)) (venvLists : List (List Interpreter)) : Project :=
  let p0 : Project := { VSVersion := vs }
  let interpName : Option String := rawGet cfg sec "python_interpreter"
  insertFiles (getStrF cfg sec "root_path" "")
    { p0 with
      Name := getStrF cfg sec "name" p0.Name
      FileName := getFileF cfg sec "filename" p0.FileName
      SearchPath := getDirsF cfg sec "search_path" p0.SearchPath
      OutputPath := getFileF cfg sec "output_path" p0.OutputPath
      WorkingDirectory := getFileF cfg sec "working_directory" p0.WorkingDirectory
      RootNamespace := getStrF cfg sec "root_namespace" p0.RootNamespace
      ProjectHome := getFileF cfg sec "project_home" p0.ProjectHome
      StartupFile := getFileF cfg sec "startup_file" p0.StartupFile
      CompileFiles := getlistF cfg sec "compile_files" p0.CompileFiles
      ContentFiles := getlistF cfg sec "content_files" p0.ContentFiles
      CompileInFilter := getlistF cfg sec "compile_in_filter" p0.CompileInFilter
      CompileExFilter := getlistF cfg sec "compile_ex_filter" p0.CompileExFilter
      ContentInFilter := getlistF cfg sec "content_in_filter" p0.ContentInFilter
      ContentExFilter := getlistF cfg sec "content_ex_filter" p0.ContentExFilter
      DirectoryInFilter := getDirsF cfg sec "directory_in_filter" p0.DirectoryInFilter
      DirectoryExFilter := getDirsF cfg sec "directory_ex_filter" p0.DirectoryExFilter
      IsWindowsApplication := isWin
      PythonInterpreterArgs := getlistF cfg sec "python_interpreter_args" p0.PythonInterpreterArgs
      PythonInterpreters := concatAll (assoc.map Prod.snd)
      PythonInterpreter :=
        (match interpName with
         | none => none
         | some nm => ((assocLookup assoc nm).getD []).head?)
      VirtualEnvironments := concatAll venvLists }

/-- Embedding of `PyvsgenSuite._getproject(config, section, VSVersion=vs)`. -/
def getproject (cfg : Config) (sec : String) (vs : Option Rat) : Except String Project :=
  if hasSection cfg sec then
    match getBoolE cfg sec "is_windows_application" false with
    | Except.error e => Except.error e
    | Except.ok isWin =>
      match getlistReq cfg sec "python_interpreters" with
      | Except.error e => Except.error e
      | Except.ok names =>
        match dictCompAux (fun n => getinterpreter cfg n vs) [] names with
        | Except.error e => Except.error e
        | Except.ok assoc =>
          match mapME (fun n => getvirtualenvironment cfg n vs)
              (getlistF cfg sec "python_virtual_environments" []) with
          | Except.error e => Except.error e
          | Except.ok venvLists => Except.ok (mkProject cfg sec vs isWin assoc venvLists)
  else Except.error (sectionNotFound sec (sectionList cfg))

/-- The default-constructed solution (`PyvsgenSolution()`); modelled from the
spec: VSVersion is required and starts absent, other fields empty. -/
def defaultSolution : Solution := {}

/-- Embedding of `PyvsgenSuite._getsolution(config, section)`. -/
def getsolution (cfg : Config) (sec : String) : Except String Solution :=
  if hasSection cfg sec then
    match getFloatE cfg sec "visual_studio_version" defaultSolution.VSVersion with
    | Except.error e => Except.error e
    | Except.ok vsv =>
      if vsv = none ∨ vsv = some 0 then Except.error (vsMsg sec)
      else
        match mapME (fun ps => getproject cfg ps vsv) (getlistF cfg sec "projects" []) with
        | Except.error e => Except.error e
        | Except.ok projects =>
          Except.ok { Name := getStrF cfg sec "name" defaultSolution.Name
                      FileName := normpathS (getStrF cfg sec "filename" defaultSolution.FileName)
                      VSVersion := vsv
                      Projects := projects }
  else Except.error (sectionNotFound sec (sectionList cfg))

/-- The sections selected for solution resolution: the list-comprehension filter
`'pyvsgen.solution' in s` over `config.sections()` (substring containment). -/
def solutionSections (cfg : Config) : List String :=
  (sectionList cfg).filter (fun s => strHas s "pyvsgen.solution")

/-- Spec-side naming convention for solution sections, written from the spec's
words: a section matches `[pyvsgen.solution.*]` when its name starts with
`pyvsgen.solution.`.  This definition exists to compare the code's filter with
the spec's convention and is deliberately NOT taken from the source. -/
def conventionMatches (s : String) : Bool :=
  strStarts ("pyvsgen.solution.".data) s.data

/-- Embedding of `PyvsgenSuite.__init__` after the configuration file has been
parsed into `cfg` (the file read itself is external I/O): root resolution and
injection, then solution discovery. -/
def buildSuite (filename : String) (cfg : Config) : Except String Suite :=
  match rawGet cfg "pyvsgen" "root" with
  | none => Except.error rootMsg
  | some r =>
    if r = "" then Except.error rootMsg
    else
      let resolved := normpathS (joinPathS (dirnameS filename) r)
      let cfg' := setOpt cfg "pyvsgen" "root" resolved
      (mapME (getsolution cfg') (solutionSections cfg')).map (fun sols => ⟨sols⟩)

/-- Ordering of solutions used by `sorted(self._solutions, key=lambda x: x.Name)`. -/
def solNameLe (a b : Solution) : Prop :=
  strLeB a.Name b.Name = true

instance : DecidableRel solNameLe :=
  fun a b => inferInstanceAs (Decidable (strLeB a.Name b.Name = true))

/-- Ordering of projects used by `sorted(..., key=lambda x: x.Name)`. -/
def projNameLe (a b : Project) : Prop :=
  strLeB a.Name b.Name = true

instance : DecidableRel projNameLe :=
  fun a b => inferInstanceAs (Decidable (strLeB a.Name b.Name = true))

/-- Ordering of interpreters by Name; the registration phase applies no sort,
this relation only states what ascending Name order would mean there. -/
def interpNameLe (a b : Interpreter) : Prop :=
  strLeB a.Name b.Name = true

instance : DecidableRel interpNameLe :=
  fun a b => inferInstanceAs (Decidable (strLeB a.Name b.Name = true))

/-- First-occurrence deduplication by a string-valued identity key, with an
accumulator of keys already seen. -/
def dedupAux (key : α → String) (seen : List String) : List α → List α
  | [] => []
  | x :: xs =>
    if key x ∈ seen then dedupAux key seen xs
    else x :: dedupAux key (key x :: seen) xs

/-- Modelled from the spec: Python's `set(...)` over entities collapses entities
with equal identity into one representative; identity is the normalized
FileName for solutions/projects and the normalized path for interpreters (spec
sections 3 and 9).  CPython guarantees no iteration order for sets, so this
list-valued model determinizes the order (first occurrence of each key) purely
to stay executable; only order-insensitive facts about it — membership,
identity keys, the choice of first-inserted representative — reflect the
program, and no ordering conclusion may be drawn from it. -/
def pySet (key : α → String) (xs : List α) : List α :=
  dedupAux key [] xs

/-- The batch handed to the solutions write phase:
`sorted(self._solutions, key=lambda x: x.Name)`. -/
def writeSolutionsPhase (su : Suite) : List Solution :=
  List.insertionSort solNameLe su.solutions

/-- The projects flattened from the sorted solutions, in generator order:
`(p for s in solutions for p in s.Projects)`. -/
def flattenedProjects (su : Suite) : List Project :=
  concatAll ((writeSolutionsPhase su).map Solution.Projects)

/-- The batch handed to the projects write phase:
`set(sorted((p for s in solutions for p in s.Projects), key=lambda x: x.Name))`. -/
def writeProjectsPhase (su : Suite) : List Project :=
  pySet Project.FileName (List.insertionSort projNameLe (flattenedProjects su))

/-- The batch handed to the interpreter registration phase:
`set(i for p in projects for i in p.PythonInterpreters)` — note no sorting. -/
def registerPhase (su : Suite) : List Interpreter :=
  pySet Interpreter.Path (concatAll ((writeProjectsPhase su).map Project.PythonInterpreters))

/-- Distinct names in first-occurrence order, skipping an initial seen set; this
is the key order of a Python dict built by inserting the names left to right. -/
def firstOccAux (seen : List String) : List String → List String
  | [] => []
  | n :: ns => if n ∈ seen then firstOccAux seen ns else n :: firstOccAux (n :: seen) ns

/-- Distinct names of a list in first-occurrence order. -/
def firstOcc (ns : List String) : List String :=
  firstOccAux [] ns

/-- Concrete project used to exercise the project write phase: identity
`p.pyproj`. -/
def exP1 : Project :=
  { Name := "alpha", FileName := "p.pyproj" }

/-- A second, structurally different project object with the same identity key
as `exP1`. -/
def exP2 : Project :=
  { Name := "beta", FileName := "p.pyproj", RootNamespace := "other" }

/-- A suite whose two solutions reference two distinct project objects that
share one identity key. -/
def exSuiteC1 : Suite :=
  ⟨[{ Name := "s1", FileName := "a.sln", Projects := [exP1] },
    { Name := "s2", FileName := "b.sln", Projects := [exP2] }]⟩

/-- Configuration with one solution, one project and two interpreter sections
whose resolved Names arrive in descending order. -/
def cfgC2 : Config := ⟨[
  ("pyvsgen", [("root", ".")]),
  ("pyvsgen.solution.s1", [("name", "sol1"), ("filename", "s1.sln"),
    ("visual_studio_version", "14.0"), ("projects", "pyvsgen.project.p1")]),
  ("pyvsgen.project.p1", [("name", "proj1"), ("filename", "p1.pyproj"),
    ("python_interpreters", "pyvsgen.interpreter.z, pyvsgen.interpreter.a"),
    ("python_interpreter", "pyvsgen.interpreter.z")]),
  ("pyvsgen.interpreter.z", [("interpreter_paths", "zz")]),
  ("pyvsgen.interpreter.a", [("interpreter_paths", "aa")])]⟩

/-- Configuration whose project lists the same interpreter section twice. -/
def cfgC3 : Config := ⟨[
  ("pyvsgen", [("root", ".")]),
  ("pyvsgen.project.p1", [("python_interpreters",
    "pyvsgen.interpreter.a, pyvsgen.interpreter.a")]),
  ("pyvsgen.interpreter.a", [("interpreter_paths", "aa")])]⟩

/-- The project resolved from `cfgC3`. -/
def pC3 : Project :=
  match getproject cfgC3 "pyvsgen.project.p1" (some 14) with
  | Except.ok p => p
  | Except.error _ => {}

/-- Configuration whose project names a selectable interpreter section with two
installations. -/
def cfgC4 : Config := ⟨[
  ("pyvsgen", [("root", "/r")]),
  ("pyvsgen.project.p1", [("python_interpreters", "pyvsgen.interpreter.a"),
    ("python_interpreter", "pyvsgen.interpreter.a")]),
  ("pyvsgen.interpreter.a", [("interpreter_paths", "i1, i2")])]⟩

/-- The project resolved from `cfgC4`. -/
def pC4 : Project :=
  match getproject cfgC4 "pyvsgen.project.p1" (some 14) with
  | Except.ok p => p
  | Except.error _ => {}

/-- Configuration whose solution section has no `visual_studio_version`. -/
def cfgC5 : Config := ⟨[
  ("pyvsgen", [("root", "/r")]),
  ("pyvsgen.solution.s", [("name", "S")])]⟩

/-- Configuration whose `[pyvsgen]` section has no `root` option. -/
def cfgC6 : Config := ⟨[
  ("pyvsgen", []),
  ("pyvsgen.solution.s", [("visual_studio_version", "14.0")])]⟩

/-- Configuration without the section `pyvsgen.solution.missing`. -/
def cfgC7 : Config := ⟨[
  ("pyvsgen", [("root", "/r")])]⟩

/-- Configuration whose root is relative to the configuration file's folder. -/
def cfgC8 : Config := ⟨[
  ("pyvsgen", [("root", "../src")]),
  ("pyvsgen.solution.s", [("visual_studio_version", "14.0"), ("filename", "x.sln")])]⟩

/-- Configuration with a section that contains `pyvsgen.solution` as a
substring without following the `[pyvsgen.solution.*]` naming convention. -/
def cfgC9 : Config := ⟨[
  ("pyvsgen", [("root", ".")]),
  ("app.pyvsgen.solution.x", [("visual_studio_version", "14.0")])]⟩

/-- The suite built from `cfgC9`. -/
def suC9 : Suite :=
  match buildSuite "/r/x.cfg" cfgC9 with
  | Except.ok su => su
  | Except.error _ => ⟨[]⟩

/-- Configuration with one project section lacking `python_interpreters` and
one project section having only `python_interpreters`. -/
def cfgC10 : Config := ⟨[
  ("pyvsgen", [("root", "/r")]),
  ("pyvsgen.project.p", [("name", "x")]),
  ("pyvsgen.project.q", [("python_interpreters", "")])]⟩

theorem charsLe_total : ∀ x y : List Char, charsLe x y = true ∨ charsLe y x = true := by
  intro x
  induction x with
  | nil => intro y; left; rfl
  | cons a as ih =>
    intro y
    cases y with
    | nil => right; rfl
    | cons b bs =>
      by_cases h1 : a.toNat < b.toNat
      · left; simp [charsLe, h1]
      · by_cases h2 : b.toNat < a.toNat
        · right; simp [charsLe, h2]
        · rcases ih bs with h | h
          · left; simp [charsLe, h1, h2, h]
          · right; simp [charsLe, h1, h2, h]

theorem charsLe_trans :
    ∀ x y z : List Char, charsLe x y = true → charsLe y z = true → charsLe x z = true := by
  intro x
  induction x with
  | nil => intro y z _ _; rfl
  | cons a as ih =>
    intro y z hxy hyz
    cases y with
    | nil => simp [charsLe] at hxy
    | cons b bs =>
      cases z with
      | nil => simp [charsLe] at hyz
      | cons c cs =>
        simp only [charsLe] at hxy hyz ⊢
        rcases Nat.lt_trichotomy a.toNat b.toNat with hab | hab | hab
        · rcases Nat.lt_trichotomy b.toNat c.toNat with hbc | hbc | hbc
          · simp [Nat.lt_trans hab hbc]
          · simp [hbc ▸ hab]
          · simp [Nat.lt_asymm hbc, hbc] at hyz
        · rcases Nat.lt_trichotomy b.toNat c.toNat with hbc | hbc | hbc
          · simp [hab ▸ hbc]
          · have n1 : ¬ a.toNat < b.toNat := by omega
            have n2 : ¬ b.toNat < a.toNat := by omega
            have n3 : ¬ b.toNat < c.toNat := by omega
            have n4 : ¬ c.toNat < b.toNat := by omega
            have n5 : ¬ a.toNat < c.toNat := by omega
            have n6 : ¬ c.toNat < a.toNat := by omega
            rw [if_neg n1, if_neg n2] at hxy
            rw [if_neg n3, if_neg n4] at hyz
            rw [if_neg n5, if_neg n6]
            exact ih bs cs hxy hyz
          · simp [Nat.lt_asymm hbc, hbc] at hyz
        · simp [Nat.lt_asymm hab, hab] at hxy

instance : IsTotal Solution solNameLe :=
  ⟨fun a b => charsLe_total a.Name.data b.Name.data⟩

instance : IsTrans Solution solNameLe :=
  ⟨fun _ _ _ h h' => charsLe_trans _ _ _ h h'⟩

instance : IsTotal Project projNameLe :=
  ⟨fun a b => charsLe_total a.Name.data b.Name.data⟩

instance : IsTrans Project projNameLe :=
  ⟨fun _ _ _ h h' => charsLe_trans _ _ _ h h'⟩

theorem dedupAux_sublist (key : α → String) :
    ∀ (xs : List α) (seen : List String), (dedupAux key seen xs).Sublist xs := by
  intro xs
  induction xs with
  | nil => intro seen; simp [dedupAux]
  | cons x xs ih =>
    intro seen
    by_cases h : key x ∈ seen
    · simp only [dedupAux, if_pos h]
      exact (ih seen).trans (List.sublist_cons_self x xs)
    · simp only [dedupAux, if_neg h]
      exact (ih (key x :: seen)).cons₂ x

theorem dedupAux_keys (key : α → String) :
    ∀ (xs : List α) (seen : List String),
      ((dedupAux key seen xs).map key).Nodup ∧ ∀ a ∈ dedupAux key seen xs, key a ∉ seen := by
  intro xs
  induction xs with
  | nil => intro seen; simp [dedupAux]
  | cons x xs ih =>
    intro seen
    by_cases h : key x ∈ seen
    · simpa only [dedupAux, if_pos h] using ih seen
    · simp only [dedupAux, if_neg h, List.map_cons, List.nodup_cons, List.mem_cons]
      refine ⟨⟨?_, (ih (key x :: seen)).1⟩, ?_⟩
      · intro hmem
        rcases List.mem_map.1 hmem with ⟨a, ha, hka⟩
        exact (ih (key x :: seen)).2 a ha (hka ▸ List.mem_cons_self _ _)
      · rintro a (rfl | ha)
        · exact h
        · intro hseen
          exact (ih (key x :: seen)).2 a ha (List.mem_cons_of_mem _ hseen)

theorem dedupAux_covers (key : α → String) :
    ∀ (xs : List α) (seen : List String) (x : α), x ∈ xs →
      key x ∈ seen ∨ ∃ q, q ∈ dedupAux key seen xs ∧ key q = key x := by
  intro xs
  induction xs with
  | nil => intro seen x hx; cases hx
  | cons y ys ih =>
    intro seen x hx
    by_cases h : key y ∈ seen
    · simp only [dedupAux, if_pos h]
      rcases List.mem_cons.1 hx with rfl | hx'
      · exact Or.inl h
      · exact ih seen x hx'
    · simp only [dedupAux, if_neg h]
      rcases List.mem_cons.1 hx with rfl | hx'
      · exact Or.inr ⟨x, List.mem_cons_self _ _, rfl⟩
      · rcases ih (key y :: seen) x hx' with hmem | ⟨q, hq, hkq⟩
        · rcases List.mem_cons.1 hmem with heq | hseen
          · exact Or.inr ⟨y, List.mem_cons_self _ _, heq.symm⟩
          · exact Or.inl hseen
        · exact Or.inr ⟨q, List.mem_cons_of_mem _ hq, hkq⟩

theorem mapME_length (f : α → Except String β) :
    ∀ (xs : List α) (ys : List β), mapME f xs = Except.ok ys → ys.length = xs.length := by
  intro xs
  induction xs with
  | nil => intro ys h; cases h; rfl
  | cons x xs ih =>
    intro ys h
    simp only [mapME] at h
    cases hfx : f x with
    | error e => rw [hfx] at h; cases h
    | ok y =>
      rw [hfx] at h
      cases hms : mapME f xs with
      | error e => rw [hms] at h; cases h
      | ok ys' =>
        rw [hms] at h
        cases h
        simp [ih ys' hms]

theorem mapME_ok_forall (f : α → Except String β) :
    ∀ (xs : List α) (ys : List β), mapME f xs = Except.ok ys →
      ∀ x ∈ xs, ∃ v, f x = Except.ok v := by
  intro xs
  induction xs with
  | nil => intro ys _ x hx; cases hx
  | cons x xs ih =>
    intro ys h a ha
    simp only [mapME] at h
    cases hfx : f x with
    | error e => rw [hfx] at h; cases h
    | ok y =>
      rw [hfx] at h
      cases hms : mapME f xs with
      | error e => rw [hms] at h; cases h
      | ok ys' =>
        rcases List.mem_cons.1 ha with rfl | ha'
        · exact ⟨y, hfx⟩
        · exact ih ys' hms a ha'

theorem mapME_ok_fun (f : α → Except String β) (g : α → β) :
    ∀ xs : List α, (∀ x ∈ xs, f x = Except.ok (g x)) → mapME f xs = Except.ok (xs.map g) := by
  intro xs
  induction xs with
  | nil => intro _; rfl
  | cons x xs ih =>
    intro h
    simp only [mapME, h x (List.mem_cons_self _ _), ih (fun a ha => h a (List.mem_cons_of_mem _ ha)),
      List.map_cons]

theorem dictInsert_mem (g : String → β) :
    ∀ (acc : List (String × β)) (k : String), (∀ pr ∈ acc, pr.2 = g pr.1) →
      k ∈ acc.map Prod.fst → dictInsert acc k (g k) = acc := by
  intro acc
  induction acc with
  | nil => intro k _ hk; cases hk
  | cons pr rest ih =>
    intro k hinv hk
    by_cases h : pr.1 = k
    · cases pr with
      | mk k' v' =>
        have hval : v' = g k' := hinv (k', v') (List.mem_cons_self _ _)
        have h' : k' = k := h
        subst h'
        simp [dictInsert, hval]
    · cases pr with
      | mk k' v' =>
        simp only at h
        simp only [dictInsert, if_neg h]
        rcases List.mem_cons.1 hk with heq | hk'
        · exact absurd heq.symm h
        · rw [ih k (fun q hq => hinv q (List.mem_cons_of_mem _ hq)) hk']

theorem dictInsert_not_mem (v : β) :
    ∀ (acc : List (String × β)) (k : String), k ∉ acc.map Prod.fst →
      dictInsert acc k v = acc ++ [(k, v)] := by
  intro acc
  induction acc with
  | nil => intro k _; rfl
  | cons pr rest ih =>
    intro k hk
    cases pr with
    | mk k' v' =>
      have h : ¬ k' = k := fun h => hk (h ▸ List.mem_cons_self _ _)
      simp only [dictInsert, if_neg h, List.cons_append]
      rw [ih k (fun hm => hk (List.mem_cons_of_mem _ hm))]

theorem firstOccAux_congr :
    ∀ (ns : List String) (s₁ s₂ : List String), (∀ a, a ∈ s₁ ↔ a ∈ s₂) →
      firstOccAux s₁ ns = firstOccAux s₂ ns := by
  intro ns
  induction ns with
  | nil => intro _ _ _; rfl
  | cons n ns ih =>
    intro s₁ s₂ hiff
    by_cases h : n ∈ s₁
    · simp only [firstOccAux, if_pos h, if_pos ((hiff n).1 h)]
      exact ih s₁ s₂ hiff
    · simp only [firstOccAux, if_neg h, if_neg (fun hm => h ((hiff n).2 hm))]
      refine congrArg (n :: ·) (ih (n :: s₁) (n :: s₂) ?_)
      intro a
      simp only [List.mem_cons]
      exact or_congr Iff.rfl (hiff a)

theorem mem_firstOccAux :
    ∀ (ns : List String) (seen : List String) (a : String),
      a ∈ firstOccAux seen ns ↔ a ∈ ns ∧ a ∉ seen := by
  intro ns
  induction ns with
  | nil => intro seen a; simp [firstOccAux]
  | cons n ns ih =>
    intro seen a
    by_cases h : n ∈ seen
    · rw [firstOccAux, if_pos h, ih]
      constructor
      · rintro ⟨ha, hs⟩
        exact ⟨List.mem_cons_of_mem _ ha, hs⟩
      · rintro ⟨ha, hs⟩
        rcases List.mem_cons.1 ha with rfl | ha'
        · exact absurd h hs
        · exact ⟨ha', hs⟩
    · rw [firstOccAux, if_neg h]
      constructor
      · intro hmem
        rcases List.mem_cons.1 hmem with rfl | hmem'
        · exact ⟨List.mem_cons_self _ _, h⟩
        · rcases (ih (n :: seen) a).1 hmem' with ⟨ha, hs⟩
          exact ⟨List.mem_cons_of_mem _ ha, fun hm => hs (List.mem_cons_of_mem _ hm)⟩
      · rintro ⟨ha, hs⟩
        rcases List.mem_cons.1 ha with rfl | ha'
        · exact List.mem_cons_self _ _
        · by_cases hna : a = n
          · subst hna
            exact List.mem_cons_self _ _
          · exact List.mem_cons_of_mem _ ((ih (n :: seen) a).2
              ⟨ha', fun hm => (List.mem_cons.1 hm).elim hna hs⟩)

theorem dictCompAux_char (f : String → Except String β) (g : String → β) :
    ∀ (ns : List String) (acc : List (String × β)),
      (∀ n ∈ ns, f n = Except.ok (g n)) → (∀ pr ∈ acc, pr.2 = g pr.1) →
      dictCompAux f acc ns =
        Except.ok (acc ++ (firstOccAux (acc.map Prod.fst) ns).map (fun k => (k, g k))) := by
  intro ns
  induction ns with
  | nil => intro acc _ _; simp [dictCompAux, firstOccAux]
  | cons n ns ih =>
    intro acc hf hinv
    have hfn := hf n (List.mem_cons_self _ _)
    simp only [dictCompAux, hfn]
    by_cases h : n ∈ acc.map Prod.fst
    · rw [dictInsert_mem g acc n hinv h]
      rw [ih acc (fun m hm => hf m (List.mem_cons_of_mem _ hm)) hinv]
      simp only [firstOccAux, if_pos h]
    · rw [dictInsert_not_mem (g n) acc n h]
      have hinv' : ∀ pr ∈ acc ++ [(n, g n)], pr.2 = g pr.1 := by
        intro pr hpr
        rcases List.mem_append.1 hpr with hm | hm
        · exact hinv pr hm
        · rcases List.mem_singleton.1 hm with rfl; rfl
      rw [ih (acc ++ [(n, g n)]) (fun m hm => hf m (List.mem_cons_of_mem _ hm)) hinv']
      simp only [firstOccAux, if_neg h, List.map_append, List.map_cons, List.map_nil]
      rw [firstOccAux_congr ns (acc.map Prod.fst ++ [n]) (n :: acc.map Prod.fst)
        (by intro a; simp [List.mem_cons, List.mem_append, or_comm])]
      simp [List.append_assoc]

theorem assocLookup_map (g : String → β) :
    ∀ (l : List String) (nm : String),
      assocLookup (l.map (fun k => (k, g k))) nm = if nm ∈ l then some (g nm) else none := by
  intro l
  induction l with
  | nil => intro nm; simp [assocLookup]
  | cons k l ih =>
    intro nm
    by_cases h : k = nm
    · subst h
      simp [assocLookup]
    · simp only [List.map_cons, assocLookup, if_neg h, ih, List.mem_cons]
      by_cases hm : nm ∈ l
      · rw [if_pos hm, if_pos (Or.inr hm)]
      · rw [if_neg hm, if_neg (by rintro (rfl | hc); exact h rfl; exact hm hc)]

theorem dictCompAux_ok_forall (f : String → Except String β) :
    ∀ (ns : List String) (acc : List (String × β)) (assoc : List (String × β)),
      dictCompAux f acc ns = Except.ok assoc → ∀ n ∈ ns, ∃ v, f n = Except.ok v := by
  intro ns
  induction ns with
  | nil => intro acc assoc _ n hn; cases hn
  | cons m ns ih =>
    intro acc assoc h n hn
    simp only [dictCompAux] at h
    cases hfm : f m with
    | error e => rw [hfm] at h; cases h
    | ok v =>
      rw [hfm] at h
      rcases List.mem_cons.1 hn with rfl | hn'
      · exact ⟨v, hfm⟩
      · exact ih (dictInsert acc m v) assoc h n hn'

theorem getinterpreter_ok (cfg : Config) (sec : String) (vs : Option Rat) (v : List Interpreter) :
    getinterpreter cfg sec vs = Except.ok v → v = totalInterp cfg sec vs := by
  intro h
  by_cases hs : hasSection cfg sec
  · simp only [getinterpreter, if_pos hs] at h
    cases h; rfl
  · simp only [getinterpreter, if_neg hs] at h
    cases h

theorem getvirtualenvironment_ok (cfg : Config) (sec : String) (vs : Option Rat)
    (v : List Interpreter) :
    getvirtualenvironment cfg sec vs = Except.ok v → v = totalVenv cfg sec vs := by
  intro h
  by_cases hs : hasSection cfg sec
  · simp only [getvirtualenvironment, if_pos hs] at h
    cases h; rfl
  · simp only [getvirtualenvironment, if_neg hs] at h
    cases h

theorem lookupKey_setKey :
    ∀ (kvs : List (String × String)) (k v : String), lookupKey (setKey kvs k v) k = some v := by
  intro kvs
  induction kvs with
  | nil => intro k v; simp [setKey, lookupKey]
  | cons pr rest ih =>
    intro k v
    cases pr with
    | mk k' v' =>
      by_cases h : k' = k
      · simp [setKey, if_pos h, lookupKey]
      · simp only [setKey, if_neg h, lookupKey, ih]

theorem findSection_mem :
    ∀ (l : List (String × List (String × String))) (sec : String) (kvs : List (String × String)),
      findSection l sec = some kvs → sec ∈ l.map Prod.fst := by
  intro l
  induction l with
  | nil => intro sec kvs h; cases h
  | cons pr rest ih =>
    intro sec kvs h
    cases pr with
    | mk n nkvs =>
      by_cases hn : n = sec
      · simp [hn]
      · simp only [findSection, if_neg hn] at h
        exact List.mem_cons_of_mem _ (ih sec kvs h)

theorem findSection_of_mem :
    ∀ (l : List (String × List (String × String))) (sec : String),
      sec ∈ l.map Prod.fst → ∃ kvs, findSection l sec = some kvs := by
  intro l
  induction l with
  | nil => intro sec h; cases h
  | cons pr rest ih =>
    intro sec h
    cases pr with
    | mk n nkvs =>
      by_cases hn : n = sec
      · exact ⟨nkvs, by simp [findSection, if_pos hn]⟩
      · rcases List.mem_cons.1 h with heq | hmem
        · exact absurd heq.symm hn
        · rcases ih sec hmem with ⟨kvs, hk⟩
          exact ⟨kvs, by simp [findSection, if_neg hn, hk]⟩

theorem rawGet_some_mem (cfg : Config) (sec key v : String) :
    rawGet cfg sec key = some v → sec ∈ sectionList cfg := by
  intro h
  simp only [rawGet] at h
  cases hfind : findSection cfg.sections sec with
  | none => rw [hfind] at h; cases h
  | some kvs => exact findSection_mem cfg.sections sec kvs hfind

theorem findSection_setOpt :
    ∀ (l : List (String × List (String × String))) (sec key v : String),
      findSection (l.map (fun s => if s.1 = sec then (s.1, setKey s.2 key v) else s)) sec =
        (findSection l sec).map (fun kvs => setKey kvs key v) := by
  intro l
  induction l with
  | nil => intro sec key v; rfl
  | cons pr rest ih =>
    intro sec key v
    cases pr with
    | mk n nkvs =>
      rw [List.map_cons]
      by_cases hn : n = sec
      · have hhead : (if (n, nkvs).1 = sec then ((n, nkvs).1, setKey (n, nkvs).2 key v)
            else (n, nkvs)) = (n, setKey nkvs key v) := by
          simp [hn]
        rw [hhead]
        simp [findSection, if_pos hn]
      · have hhead : (if (n, nkvs).1 = sec then ((n, nkvs).1, setKey (n, nkvs).2 key v)
            else (n, nkvs)) = (n, nkvs) := by
          simp [hn]
        rw [hhead]
        simp only [findSection, if_neg hn]
        exact ih sec key v

theorem rawGet_setOpt (cfg : Config) (sec key v : String) :
    sec ∈ sectionList cfg → rawGet (setOpt cfg sec key v) sec key = some v := by
  intro hmem
  rcases findSection_of_mem cfg.sections sec hmem with ⟨kvs, hk⟩
  simp only [rawGet, setOpt, findSection_setOpt, hk, Option.map_some, Option.bind_some]
  exact lookupKey_setKey kvs key v

theorem sectionList_setOpt (cfg : Config) (sec key v : String) :
    sectionList (setOpt cfg sec key v) = sectionList cfg := by
  simp only [sectionList, setOpt]
  induction cfg.sections with
  | nil => rfl
  | cons pr rest ih =>
    by_cases h : pr.1 = sec
    · simp only [List.map_cons, if_pos h, ih]
    · simp only [List.map_cons, if_neg h, ih]

theorem solutionSections_setOpt (cfg : Config) (sec key v : String) :
    solutionSections (setOpt cfg sec key v) = solutionSections cfg := by
  simp only [solutionSections, sectionList_setOpt]

theorem hasSection_false_of_not_mem (cfg : Config) (sec : String) :
    sec ∉ sectionList cfg → hasSection cfg sec = false := by
  intro h
  simp only [hasSection]
  cases hfind : findSection cfg.sections sec with
  | none => rfl
  | some kvs => exact absurd (findSection_mem cfg.sections sec kvs hfind) h

/-- C1: for every suite, the collection handed to the project write phase holds
exactly one representative per identity key (normalized FileName): its keys are
pairwise distinct, and every flattened project — object identity aside — is
represented by an entry with the same identity key. -/
theorem projectsPhase_unique_by_identity (su : Suite) :
    ((writeProjectsPhase su).map Project.FileName).Nodup ∧
    ∀ p, p ∈ flattenedProjects su →
      ∃ q, q ∈ writeProjectsPhase su ∧ q.FileName = p.FileName := by
  constructor
  · exact (dedupAux_keys Project.FileName _ []).1
  · intro p hp
    have hp' : p ∈ List.insertionSort projNameLe (flattenedProjects su) :=
      ((List.perm_insertionSort projNameLe (flattenedProjects su)).mem_iff).2 hp
    rcases dedupAux_covers Project.FileName _ [] p hp' with hmem | ⟨q, hq, hkq⟩
    · cases hmem
    · exact ⟨q, hq, hkq⟩

/-- C1 witness: two solutions referencing two distinct project objects with the
identity key `p.pyproj` yield a projects batch with a single entry carrying
that key. -/
theorem projectsPhase_unique_by_identity_witness :
    (writeProjectsPhase exSuiteC1).length = 1 ∧
    ∃ q, q ∈ writeProjectsPhase exSuiteC1 ∧ q.FileName = exP2.FileName :=
  ⟨by decide, (projectsPhase_unique_by_identity exSuiteC1).2 exP2 (by decide)⟩

/-- C2 counterexample: a suite built from `cfgC2` writes successfully, yet the
interpreter registration batch is not in ascending Name order — `write` applies
no sort to that phase, refuting the claim that every phase is sorted by Name
before execution. -/
theorem registerPhase_not_sorted_cex :
    (buildSuite "/r/x.cfg" cfgC2).map
      (fun su => decide (List.Pairwise interpNameLe (registerPhase su))) = Except.ok false := by
  rfl

/-- C2 amended: only the solutions batch is materialized in ascending Name
order — `write` sorts it and passes the resulting list directly.  The projects
batch is converted to a set after its sort and the interpreter batch is never
sorted, so neither carries an ordering guarantee. -/
theorem phases_sorted_amended (su : Suite) :
    List.Pairwise solNameLe (writeSolutionsPhase su) :=
  List.sorted_insertionSort solNameLe su.solutions

/-- C5: a solution section that resolves no usable `visual_studio_version`
(absent, hence the falsy default, or an explicit zero) makes `_getsolution`
fail with the `ValueError` naming that section. -/
theorem missing_vsversion_fatal (cfg : Config) (sec : String) (v : Option Rat)
    (h1 : hasSection cfg sec = true)
    (h2 : getFloatE cfg sec "visual_studio_version" defaultSolution.VSVersion = Except.ok v)
    (h3 : v = none ∨ v = some 0) :
    getsolution cfg sec = Except.error (vsMsg sec) := by
  simp only [getsolution, h1, if_true, h2, if_pos h3]

/-- C5 witness: the solution section of `cfgC5` lacks `visual_studio_version`
and resolution fails with the error naming it. -/
theorem missing_vsversion_fatal_witness :
    (hasSection cfgC5 "pyvsgen.solution.s" = true ∧
      getFloatE cfgC5 "pyvsgen.solution.s" "visual_studio_version" defaultSolution.VSVersion =
        Except.ok none) ∧
    getsolution cfgC5 "pyvsgen.solution.s" = Except.error (vsMsg "pyvsgen.solution.s") :=
  ⟨⟨rfl, rfl⟩, missing_vsversion_fatal cfgC5 "pyvsgen.solution.s" none rfl rfl (Or.inl rfl)⟩

/-- C6: a configuration whose `[pyvsgen]` section lacks the `root` option, or
holds it with an empty value, makes suite construction fail with the root
`ValueError` — regardless of any other section, since the check precedes all
section processing. -/
theorem missing_root_fatal (filename : String) (cfg : Config)
    (h : rawGet cfg "pyvsgen" "root" = none ∨ rawGet cfg "pyvsgen" "root" = some "") :
    buildSuite filename cfg = Except.error rootMsg := by
  rcases h with h | h
  · simp [buildSuite, h]
  · simp [buildSuite, h]

/-- C6 witness: `cfgC6` lacks `root` and suite construction fails with the root
error even though a well-formed solution section is present. -/
theorem missing_root_fatal_witness :
    rawGet cfgC6 "pyvsgen" "root" = none ∧
    buildSuite "/x.cfg" cfgC6 = Except.error rootMsg :=
  ⟨rfl, missing_root_fatal "/x.cfg" cfgC6 (Or.inl rfl)⟩

/-- C7: resolving any entity from a section absent from the configuration fails
immediately with the error naming the requested section and the available
sections, for solutions, projects, interpreters and virtual environments
alike; no entity value is produced. -/
theorem missing_section_fatal (cfg : Config) (sec : String) (vs : Option Rat)
    (h : sec ∉ sectionList cfg) :
    getsolution cfg sec = Except.error (sectionNotFound sec (sectionList cfg)) ∧
    getproject cfg sec vs = Except.error (sectionNotFound sec (sectionList cfg)) ∧
    getinterpreter cfg sec vs = Except.error (sectionNotFound sec (sectionList cfg)) ∧
    getvirtualenvironment cfg sec vs = Except.error (sectionNotFound sec (sectionList cfg)) := by
  have hf := hasSection_false_of_not_mem cfg sec h
  refine ⟨?_, ?_, ?_, ?_⟩ <;>
    simp [getsolution, getproject, getinterpreter, getvirtualenvironment, hf]

/-- C7 witness: the section `pyvsgen.solution.missing` is absent from `cfgC7`
and all four resolvers fail with the error naming it and the available
sections. -/
theorem missing_section_fatal_witness :
    ("pyvsgen.solution.missing" ∉ sectionList cfgC7) ∧
    getsolution cfgC7 "pyvsgen.solution.missing" =
      Except.error (sectionNotFound "pyvsgen.solution.missing" (sectionList cfgC7)) :=
  ⟨by decide, (missing_section_fatal cfgC7 "pyvsgen.solution.missing" none (by decide)).1⟩

/-- C8: with a usable `root`, the value stored back under `[pyvsgen]/root` is
the configured root joined to the configuration file's directory and
normalized, and solution resolution operates entirely on the updated store. -/
theorem root_injection (filename : String) (cfg : Config) (r : String)
    (h1 : rawGet cfg "pyvsgen" "root" = some r) (h2 : ¬ r = "") :
    rawGet (setOpt cfg "pyvsgen" "root" (normpathS (joinPathS (dirnameS filename) r)))
        "pyvsgen" "root" = some (normpathS (joinPathS (dirnameS filename) r)) ∧
    buildSuite filename cfg =
      (mapME (getsolution (setOpt cfg "pyvsgen" "root"
          (normpathS (joinPathS (dirnameS filename) r))))
        (solutionSections (setOpt cfg "pyvsgen" "root"
          (normpathS (joinPathS (dirnameS filename) r))))).map (fun sols => ⟨sols⟩) := by
  constructor
  · exact rawGet_setOpt cfg "pyvsgen" "root" _ (rawGet_some_mem cfg "pyvsgen" "root" r h1)
  · simp [buildSuite, h1, h2]

/-- C8 witness: for a configuration file at `/etc/app/p.cfg` with configured
root `../src`, the injected root is the resolved absolute path `/etc/src`. -/
theorem root_injection_witness :
    (rawGet cfgC8 "pyvsgen" "root" = some "../src" ∧ ¬ ("../src" = "")) ∧
    rawGet (setOpt cfgC8 "pyvsgen" "root"
      (normpathS (joinPathS (dirnameS "/etc/app/p.cfg") "../src"))) "pyvsgen" "root" =
        some "/etc/src" :=
  ⟨⟨rfl, by decide⟩, (root_injection "/etc/app/p.cfg" cfgC8 "../src" rfl (by decide)).1⟩

/-- C9 counterexample: the section `app.pyvsgen.solution.x` does not follow the
`[pyvsgen.solution.*]` naming convention, yet the substring filter selects it
and suite construction resolves it into a Solution. -/
theorem solution_filter_substring_cex :
    conventionMatches "app.pyvsgen.solution.x" = false ∧
    solutionSections cfgC9 = ["app.pyvsgen.solution.x"] ∧
    (buildSuite "/r/x.cfg" cfgC9).map (fun su => su.solutions.length) = Except.ok 1 := by
  refine ⟨rfl, rfl, rfl⟩

/-- C9 amended: suite construction resolves into a Solution exactly those
sections whose name contains the substring `pyvsgen.solution`, in encountered
order; on success the suite holds one solution per selected section. -/
theorem solution_discovery_amended (cfg : Config) :
    (solutionSections cfg).Sublist (sectionList cfg) ∧
    (∀ s, s ∈ solutionSections cfg ↔ s ∈ sectionList cfg ∧ strHas s "pyvsgen.solution" = true) ∧
    (∀ filename suite, buildSuite filename cfg = Except.ok suite →
      suite.solutions.length = (solutionSections cfg).length) := by
  refine ⟨List.filter_sublist _, ?_, ?_⟩
  · intro s
    simp [solutionSections, List.mem_filter]
  · intro filename suite h
    cases hr : rawGet cfg "pyvsgen" "root" with
    | none => simp [buildSuite, hr] at h
    | some r =>
      simp only [buildSuite, hr] at h
      by_cases hre : r = ""
      · rw [if_pos hre] at h
        simp at h
      · rw [if_neg hre] at h
        cases hm : mapME
            (getsolution (setOpt cfg "pyvsgen" "root" (normpathS (joinPathS (dirnameS filename) r))))
            (solutionSections (setOpt cfg "pyvsgen" "root"
              (normpathS (joinPathS (dirnameS filename) r)))) with
        | error e =>
          rw [hm] at h
          simp [Except.map] at h
        | ok sols =>
          rw [hm] at h
          simp only [Except.map, Except.ok.injEq] at h
          have hlen := mapME_length _ _ _ hm
          rw [← h]
          simpa [solutionSections_setOpt] using hlen

/-- C9 amended witness: the suite built from `cfgC9` has exactly as many
solutions as there are substring-selected sections. -/
theorem solution_discovery_amended_witness :
    buildSuite "/r/x.cfg" cfgC9 = Except.ok suC9 ∧
    suC9.solutions.length = (solutionSections cfgC9).length :=
  ⟨rfl, (solution_discovery_amended cfgC9).2.2 "/r/x.cfg" suC9 rfl⟩

/-- C10: `python_interpreters` is the one required project option: a project
section lacking it fails to resolve, while a project section holding only
`python_interpreters` resolves successfully, every other option silently
falling back to its default. -/
theorem python_interpreters_required (cfg : Config) (sec : String) (vs : Option Rat) :
    (hasSection cfg sec = true → rawGet cfg sec "python_interpreters" = none →
      ∃ e, getproject cfg sec vs = Except.error e) ∧
    (findSection cfg.sections sec = some [("python_interpreters", "")] →
      getproject cfg sec vs = Except.ok (mkProject cfg sec vs false [] [])) := by
  constructor
  · intro h1 h2
    cases hb : getBoolE cfg sec "is_windows_application" false with
    | error e => exact ⟨e, by simp [getproject, h1, hb]⟩
    | ok b =>
      refine ⟨noOptionMsg sec "python_interpreters", ?_⟩
      simp [getproject, h1, hb, getlistReq, h2]
  · intro hfind
    have h1 : hasSection cfg sec = true := by simp [hasSection, hfind]
    have hwin : rawGet cfg sec "is_windows_application" = none := by
      simp [rawGet, hfind, lookupKey]
    have hpi : rawGet cfg sec "python_interpreters" = some "" := by
      simp [rawGet, hfind, lookupKey]
    have hv : rawGet cfg sec "python_virtual_environments" = none := by
      simp [rawGet, hfind, lookupKey]
    have hsplit : splitListCfg "" = [] := rfl
    simp [getproject, h1, getBoolE, hwin, getlistReq, hpi, hsplit, dictCompAux, getlistF, hv, mapME]

/-- C10 witness: in `cfgC10`, the project section without `python_interpreters`
fails to resolve while the one holding only `python_interpreters` succeeds. -/
theorem python_interpreters_required_witness :
    (∃ e, getproject cfgC10 "pyvsgen.project.p" (some 14) = Except.error e) ∧
    getproject cfgC10 "pyvsgen.project.q" (some 14) =
      Except.ok (mkProject cfgC10 "pyvsgen.project.q" (some 14) false [] []) :=
  ⟨(python_interpreters_required cfgC10 "pyvsgen.project.p" (some 14)).1 rfl rfl,
   (python_interpreters_required cfgC10 "pyvsgen.project.q" (some 14)).2 rfl⟩

theorem getproject_ok_char (cfg : Config) (sec : String) (vs : Option Rat) (p : Project)
    (h : getproject cfg sec vs = Except.ok p) :
    ∃ isWin names,
      getlistReq cfg sec "python_interpreters" = Except.ok names ∧
      p = mkProject cfg sec vs isWin
            ((firstOcc names).map (fun k => (k, totalInterp cfg k vs)))
            ((getlistF cfg sec "python_virtual_environments" []).map
              (fun n => totalVenv cfg n vs)) := by
  cases hs : hasSection cfg sec with
  | false => simp [getproject, hs] at h
  | true =>
    simp only [getproject, hs, if_true] at h
    cases hb : getBoolE cfg sec "is_windows_application" false with
    | error e => simp only [hb] at h; simp at h
    | ok isWin =>
      simp only [hb] at h
      cases hq : getlistReq cfg sec "python_interpreters" with
      | error e => simp only [hq] at h; simp at h
      | ok names =>
        simp only [hq] at h
        cases hd : dictCompAux (fun n => getinterpreter cfg n vs) [] names with
        | error e => simp only [hd] at h; simp at h
        | ok assoc =>
          simp only [hd] at h
          cases hv : mapME (fun n => getvirtualenvironment cfg n vs)
              (getlistF cfg sec "python_virtual_environments" []) with
          | error e => simp only [hv] at h; simp at h
          | ok venvLists =>
            simp only [hv, Except.ok.injEq] at h
            have hall : ∀ n ∈ names,
                (fun n => getinterpreter cfg n vs) n = Except.ok (totalInterp cfg n vs) := by
              intro n hn
              rcases dictCompAux_ok_forall _ names [] assoc hd n hn with ⟨v, hvok⟩
              show getinterpreter cfg n vs = Except.ok (totalInterp cfg n vs)
              rw [hvok, getinterpreter_ok cfg n vs v hvok]
            have hchar := dictCompAux_char (fun n => getinterpreter cfg n vs)
              (fun n => totalInterp cfg n vs) names [] hall (by intro pr hpr; cases hpr)
            rw [hd] at hchar
            have hassoc : assoc =
                (firstOcc names).map (fun k => (k, totalInterp cfg k vs)) := by
              simpa [firstOcc, Except.ok.injEq] using hchar
            have hvall : ∀ n ∈ getlistF cfg sec "python_virtual_environments" [],
                (fun n => getvirtualenvironment cfg n vs) n = Except.ok (totalVenv cfg n vs) := by
              intro n hn
              rcases mapME_ok_forall _ _ _ hv n hn with ⟨v, hvok⟩
              show getvirtualenvironment cfg n vs = Except.ok (totalVenv cfg n vs)
              rw [hvok, getvirtualenvironment_ok cfg n vs v hvok]
            have hvchar := mapME_ok_fun _ (fun n => totalVenv cfg n vs) _ hvall
            rw [hv] at hvchar
            have hvl : venvLists = (getlistF cfg sec "python_virtual_environments" []).map
                (fun n => totalVenv cfg n vs) := by
              injection hvchar with h'
            refine ⟨isWin, names, rfl, ?_⟩
            rw [← h, hassoc, hvl]

theorem getsolution_ok_projects (cfg : Config) (sec : String) (sol : Solution)
    (h : getsolution cfg sec = Except.ok sol) :
    sol.Projects.length = (getlistF cfg sec "projects" []).length := by
  cases hs : hasSection cfg sec with
  | false => simp [getsolution, hs] at h
  | true =>
    simp only [getsolution, hs, if_true] at h
    cases hf : getFloatE cfg sec "visual_studio_version" defaultSolution.VSVersion with
    | error e => simp only [hf] at h; simp at h
    | ok vsv =>
      simp only [hf] at h
      by_cases htr : vsv = none ∨ vsv = some 0
      · rw [if_pos htr] at h
        simp at h
      · rw [if_neg htr] at h
        cases hm : mapME (fun ps => getproject cfg ps vsv) (getlistF cfg sec "projects" []) with
        | error e => simp only [hm] at h; simp at h
        | ok projects =>
          simp only [hm, Except.ok.injEq] at h
          rw [← h]
          exact mapME_length _ _ _ hm

/-- C3 counterexample: in `cfgC3` the project's `python_interpreters` list holds
the same section name twice and that section resolves to one interpreter, yet
the project's full Interpreter set holds it once, not twice — the name-keyed
dict comprehension collapses the duplicate occurrence. -/
theorem duplicate_interp_names_collapse_cex :
    getlistReq cfgC3 "pyvsgen.project.p1" "python_interpreters" =
      Except.ok ["pyvsgen.interpreter.a", "pyvsgen.interpreter.a"] ∧
    (getinterpreter cfgC3 "pyvsgen.interpreter.a" (some 14)).map List.length = Except.ok 1 ∧
    (getproject cfgC3 "pyvsgen.project.p1" (some 14)).map
      (fun p => p.PythonInterpreters.length) = Except.ok 1 :=
  ⟨rfl, rfl, rfl⟩

/-- C3 amended: a Solution's `projects` entries and a Project's
`python_virtual_environments` entries are resolved once per occurrence with no
deduplication, but the `python_interpreters` names are collected into a
name-keyed mapping that collapses duplicate names, so the Project's full
Interpreter set concatenates one list per distinct name in first-occurrence
order. -/
theorem resolution_per_occurrence_amended :
    (∀ cfg sec sol, getsolution cfg sec = Except.ok sol →
      sol.Projects.length = (getlistF cfg sec "projects" []).length) ∧
    (∀ cfg sec vs p names, getproject cfg sec vs = Except.ok p →
      getlistReq cfg sec "python_interpreters" = Except.ok names →
      p.PythonInterpreters =
        concatAll ((firstOcc names).map (fun n => totalInterp cfg n vs)) ∧
      p.VirtualEnvironments =
        concatAll ((getlistF cfg sec "python_virtual_environments" []).map
          (fun n => totalVenv cfg n vs))) := by
  constructor
  · exact getsolution_ok_projects
  · intro cfg sec vs p names hok hreq
    rcases getproject_ok_char cfg sec vs p hok with ⟨isWin, names', hreq', hp⟩
    have hns : names' = names := by
      rw [hreq'] at hreq
      simpa [Except.ok.injEq] using hreq
    subst hns
    subst hp
    constructor
    · simp [mkProject, insertFiles, List.map_map, Function.comp_def]
    · simp [mkProject, insertFiles]

/-- C3 amended witness: the duplicated name in `cfgC3` contributes its
interpreter list once, over the distinct names in first-occurrence order. -/
theorem resolution_per_occurrence_amended_witness :
    (getproject cfgC3 "pyvsgen.project.p1" (some 14) = Except.ok pC3 ∧
      getlistReq cfgC3 "pyvsgen.project.p1" "python_interpreters" =
        Except.ok ["pyvsgen.interpreter.a", "pyvsgen.interpreter.a"]) ∧
    pC3.PythonInterpreters =
      concatAll ((firstOcc ["pyvsgen.interpreter.a", "pyvsgen.interpreter.a"]).map
        (fun n => totalInterp cfgC3 n (some 14))) :=
  ⟨⟨rfl, rfl⟩,
   ((resolution_per_occurrence_amended).2 cfgC3 "pyvsgen.project.p1" (some 14) pC3
     ["pyvsgen.interpreter.a", "pyvsgen.interpreter.a"] rfl rfl).1⟩

/-- C4: on every successfully resolved project, SelectedInterpreter is the first
interpreter of the list the name-keyed mapping associates with the configured
`python_interpreter` name, and is empty — with no error — when that option is
absent, names a section outside the mapping, or names a section whose list is
empty. -/
theorem selected_interpreter_first (cfg : Config) (sec : String) (vs : Option Rat)
    (p : Project) (s : String)
    (hok : getproject cfg sec vs = Except.ok p)
    (hnames : rawGet cfg sec "python_interpreters" = some s) :
    (rawGet cfg sec "python_interpreter" = none → p.PythonInterpreter = none) ∧
    (∀ nm, rawGet cfg sec "python_interpreter" = some nm →
      p.PythonInterpreter =
        if nm ∈ splitListCfg s then (totalInterp cfg nm vs).head? else none) := by
  have hreq : getlistReq cfg sec "python_interpreters" = Except.ok (splitListCfg s) := by
    simp [getlistReq, hnames]
  rcases getproject_ok_char cfg sec vs p hok with ⟨isWin, names, hreq', hp⟩
  have hns : names = splitListCfg s := by
    rw [hreq'] at hreq
    simpa [Except.ok.injEq] using hreq
  subst hns
  subst hp
  constructor
  · intro h0
    simp [mkProject, insertFiles, h0]
  · intro nm hnm
    simp only [mkProject, insertFiles, hnm]
    rw [assocLookup_map]
    have hiff : ∀ a, a ∈ firstOcc (splitListCfg s) ↔ a ∈ splitListCfg s := by
      intro a
      rw [firstOcc, mem_firstOccAux]
      simp
    by_cases hmem : nm ∈ splitListCfg s
    · rw [if_pos ((hiff nm).2 hmem), if_pos hmem]
      simp
    · rw [if_neg (fun hc => hmem ((hiff nm).1 hc)), if_neg hmem]
      simp

/-- C4 witness: in `cfgC4` the configured name resolves and SelectedInterpreter
is the first of its two discovered installations. -/
theorem selected_interpreter_first_witness :
    (getproject cfgC4 "pyvsgen.project.p1" (some 14) = Except.ok pC4 ∧
      rawGet cfgC4 "pyvsgen.project.p1" "python_interpreters" = some "pyvsgen.interpreter.a" ∧
      rawGet cfgC4 "pyvsgen.project.p1" "python_interpreter" = some "pyvsgen.interpreter.a") ∧
    pC4.PythonInterpreter = (totalInterp cfgC4 "pyvsgen.interpreter.a" (some 14)).head? := by
  refine ⟨⟨rfl, rfl, rfl⟩, ?_⟩
  have h := (selected_interpreter_first cfgC4 "pyvsgen.project.p1" (some 14) pC4
    "pyvsgen.interpreter.a" rfl rfl).2 "pyvsgen.interpreter.a" rfl
  rw [h, if_pos (by decide)]
